import Mathlib

/-!
Verification of the bitsandbytes LLM.int8() mixed-precision matmul engine.

The development shallowly embeds, over exact rational arithmetic:
* the triton row-wise quantization kernel
  (`bitsandbytes/nn/triton_utils/v0/quantize_rowwise_nogroup.py`),
* the autograd engine `MatMul8bitLt` with its `MatmulLtState` cache and the
  `GlobalOutlierPooler` (`bitsandbytes/autograd/_functions.py`),
* the `Int8Params` parameter subclass (`bitsandbytes/nn/modules.py`).

Machine floating point is modelled by `ℚ` (exact arithmetic); a floating
division by zero (which produces NaN on hardware) is modelled explicitly as
`Option.none`.  The external collaborators from `bitsandbytes/functional.py`
(`double_quant`, `transform`, `igemmlt`, `mm_dequant`, `extract_outliers`)
are not part of the analysed sources; they are modelled from the spec
(sections 4.1, 4.2, 4.3 and 6), with the layout transform value-preserving.
-/

namespace BnB

/-- Rational-valued matrices, the model of floating-point 2-D tensors. -/
abbrev QMat (m n : ℕ) := Matrix (Fin m) (Fin n) ℚ

/-- Integer-valued matrices, the model of int8/int32 2-D tensors. -/
abbrev ZMat (m n : ℕ) := Matrix (Fin m) (Fin n) ℤ

/-- Round to nearest, ties to even: the semantics of `tl.libdevice.llrint`. -/
def rne (q : ℚ) : ℤ :=
  if q - ⌊q⌋ < 1/2 then ⌊q⌋
  else if 1/2 < q - ⌊q⌋ then ⌊q⌋ + 1
  else if ⌊q⌋ % 2 = 0 then ⌊q⌋ else ⌊q⌋ + 1

/-- Clamp an integer into the symmetric int8 range [-127, 127]. -/
def int8clamp (z : ℤ) : ℤ := max (-127) (min 127 z)

/-- `tl.max(tl.where(row_mask, abs_x, 0), axis=0)` over row `i`:
the running maximum of the absolute values, started from the `0` fill. -/
def rowAbsMax {m n : ℕ} (x : QMat m n) (i : Fin m) : ℚ :=
  ((List.ofFn fun j => |x i j|).foldl max 0)

/-- Column-wise analogue of `rowAbsMax`. -/
def colAbsMax {m n : ℕ} (x : QMat m n) (j : Fin n) : ℚ :=
  ((List.ofFn fun i => |x i j|).foldl max 0)

/-- Embedding of the triton kernel `_quantize_rowwise_nogroup` together with
its launcher `quantize_rowwise_nogroup` (source file
`bitsandbytes/nn/triton_utils/v0/quantize_rowwise_nogroup.py`, lines 27-58).
Per row `i` it computes `max_val = max(|x[i,:]|)` (with the masked fill `0`)
and stores `llrint(127 * (x[i,j] / max_val))` and `max_val`.  The kernel
divides by `max_val` unconditionally; when `max_val = 0` the float division
`0/0` yields NaN, modelled here as `none`.  The first component is the int8
output, the second the `output_maxs` vector. -/
def quantize_rowwise_nogroup {m n : ℕ} (x : QMat m n) :
    (Fin m → Fin n → Option ℤ) × (Fin m → ℚ) :=
  (fun i j =>
      if rowAbsMax x i = 0 then none
      else some (rne (127 * (x i j / rowAbsMax x i))),
   fun i => rowAbsMax x i)

/-! ### Spec-modelled quantizer / dequantizer collaborators

`bitsandbytes/functional.py` is not among the analysed sources; the
definitions below are modelled from the spec. -/

/-- Modelled from the spec (section 4.1): the scale actually divided by;
the all-zero-row policy substitutes scale 1 for a degenerate scale 0. -/
def vq_scale (s : ℚ) : ℚ := if s = 0 then 1 else s

/-- Modelled from the spec (section 4.1): row-wise vector quantization,
`q[i,j] = round(127 * t[i,j] / scale[i])` with `scale[i] = max(|t[i,:]|)`. -/
def vectorwise_quant_row {m n : ℕ} (A : QMat m n) : ZMat m n :=
  fun i j => round (127 * A i j / vq_scale (rowAbsMax A i))

/-- Modelled from the spec (section 4.1): column-wise vector quantization. -/
def vectorwise_quant_col {m n : ℕ} (A : QMat m n) : ZMat m n :=
  fun i j => round (127 * A i j / vq_scale (colAbsMax A j))

/-- Columns whose maximum magnitude exceeds the threshold (spec 4.1:
outlier columns of the overlay produced by `doubleQuantize`). -/
def outlier_cols {m n : ℕ} (A : QMat m n) (threshold : ℚ) : Finset (Fin n) :=
  Finset.univ.filter (fun j => threshold < colAbsMax A j)

/-- Modelled from the spec (sections 4.1 and 12 of the data model):
`double_quant` returns the row-wise quantized tensor, the column-wise
quantized tensor, the per-row and per-column scale statistics, and - when
the threshold is positive and some column exceeds it - the outlier column
set (the COO overlay).  With threshold 0 no overlay is produced. -/
def double_quant {m n : ℕ} (A : QMat m n) (threshold : ℚ) :
    ZMat m n × ZMat m n × (Fin m → ℚ) × (Fin n → ℚ) × Option (Finset (Fin n)) :=
  (vectorwise_quant_row A, vectorwise_quant_col A,
   fun i => rowAbsMax A i, fun j => colAbsMax A j,
   if 0 < threshold ∧ (outlier_cols A threshold).Nonempty
   then some (outlier_cols A threshold) else none)

/-- Modelled from the spec (section 6): the integer GEMM.  `igemmlt X Y`
multiplies `X` against the transpose of `Y`, the orientation used by the
engine (`out = A @ B^T`); the layout transform is value-preserving. -/
def igemmlt {m k p : ℕ} (X : ZMat m k) (Y : ZMat p k) : ZMat m p :=
  fun i j => ∑ t, X i t * Y j t

/-- Modelled from the spec (section 4.2):
`output[i,j] = int32Result[i,j] * rowScaleA[i] * rowScaleB[j] / 127^2`,
plus the fused bias when provided. -/
def mm_dequant {m p : ℕ} (out32 : ZMat m p) (rowStats : Fin m → ℚ)
    (colStats : Fin p → ℚ) (bias : Option (Fin p → ℚ)) : QMat m p :=
  fun i j => (out32 i j : ℚ) * rowStats i * colStats j / (127 * 127) +
    (match bias with | some b => b j | none => 0)

/-- Zero out the given set of columns of an integer matrix
(`CA[:, idx] = 0`). -/
def zeroCols {m n : ℕ} (M : ZMat m n) (I : Finset (Fin n)) : ZMat m n :=
  fun i j => if j ∈ I then 0 else M i j

/-! ### GlobalOutlierPooler (`autograd/_functions.py`, lines 19-45) -/

/-- The state of the process-wide `GlobalOutlierPooler` singleton:
the accumulated outlier column indices and the recorded feature width. -/
structure GlobalOutlierPooler where
  outliers : Finset ℕ
  model_dim : Option ℕ
deriving DecidableEq

/-- The pool right after `initialize`: empty set, no recorded width. -/
def GlobalOutlierPooler.initialState : GlobalOutlierPooler := ⟨∅, none⟩

/-- `GlobalOutlierPooler.add_outliers` (lines 36-42): record the feature
width on first use; ignore contributions of a different width; otherwise
merge the indices into the accumulated set. -/
def GlobalOutlierPooler.add_outliers (s : GlobalOutlierPooler)
    (outlier_idx : Finset ℕ) (feature_dim : ℕ) : GlobalOutlierPooler :=
  let md := match s.model_dim with | none => feature_dim | some d => d
  if feature_dim ≠ md then { s with model_dim := some md }
  else { outliers := s.outliers ∪ outlier_idx, model_dim := some md }

/-- `GlobalOutlierPooler.get_current_outlier_idx` (lines 44-45). -/
def GlobalOutlierPooler.get_current_outlier_idx (s : GlobalOutlierPooler) :
    Finset ℕ := s.outliers

/-! ### MatmulLtState (`autograd/_functions.py`, lines 168-199) -/

/-- The per-weight quantization-state cache.  `CxB` is the (value-preserving)
layout transform of the bulk int8 weight, `SB`/`SBt` layout descriptors
(shapes), `SCB`/`SCBt` the row/column scale statistics, `CBt` the
column-wise quantized weight, `subB` the floating outlier columns
(stored full-width, meaningful on `idx`). -/
structure MatmulLtState (dout din : ℕ) where
  CB : Option (ZMat dout din) := none
  CxB : Option (ZMat dout din) := none
  SB : Option (ℕ × ℕ) := none
  SCB : Option (Fin dout → ℚ) := none
  CxBt : Option (Matrix (Fin din) (Fin dout) ℤ) := none
  SBt : Option (ℕ × ℕ) := none
  CBt : Option (ZMat dout din) := none
  SCBt : Option (Fin din → ℚ) := none
  subB : Option (Matrix (Fin din) (Fin dout) ℚ) := none
  threshold : ℚ := 0
  idx : Option (Finset (Fin din)) := none
  is_training : Bool := true
  has_fp16_weights : Bool := true

/-- `MatmulLtState.reset_grads` (lines 191-199). -/
def MatmulLtState.reset_grads {dout din : ℕ} (s : MatmulLtState dout din) :
    MatmulLtState dout din :=
  { s with
      CB := none, CxB := none, SB := none, SCB := none,
      CxBt := none, SBt := none, CBt := none }

/-! ### MatMul8bitLt.forward (`autograd/_functions.py`, lines 202-337) -/

/-- The information the forward pass produces: the output, the updated
state, whether the weight `B` was (re)quantized in this call, whether the
mixed-precision correction `output += subA @ subB` was performed, and the
tensors saved for backward (`ctx.tensors` / `ctx.tensor_states`). -/
structure ForwardResult (nb dout din : ℕ) where
  output : QMat nb dout
  state : MatmulLtState dout din
  quantizedB : Bool
  correctionApplied : Bool
  savedCAt : Option (ZMat nb din)
  savedSubA : Option (QMat nb din)
  savedSCAt : Option (Fin din → ℚ)
  savedIdx : Option (Finset (Fin din))

/-- The outlier data threaded from step 1 to the decomposition matmul:
the floating activations (`subA`, stored full-width, read on `idx`), the
outlier column set, and the floating outlier weight columns `subB`. -/
abbrev SubInfo (nb dout din : ℕ) :=
  Option (QMat nb din × Finset (Fin din) × Matrix (Fin din) (Fin dout) ℚ)

/-- The `else` part of step 1 (lines 254-257): no decomposition this call;
for a purely-quantized weight whose transform is not cached yet, transform
`state.CB` (failing, as the source would, when `CB` is absent). -/
def MatMul8bitLt.stepNoOutlierA {nb dout din : ℕ} (CA CAt : ZMat nb din)
    (state : MatmulLtState dout din) :
    Except String (ZMat nb din × ZMat nb din × SubInfo nb dout din ×
      MatmulLtState dout din) :=
  if state.has_fp16_weights then .ok (CA, CAt, none, state)
  else
    match state.CxB with
    | some _ => .ok (CA, CAt, none, state)
    | none =>
      match state.CB with
      | some cb => .ok (CA, CAt, none,
          { state with CxB := some cb, SB := some (dout, din) })
      | none => .error "state.CB is missing"

/-- Step 1 after quantizing `A` (lines 241-257): if the threshold is
positive and an outlier overlay was produced, zero the outlier columns of
the quantized activations; with fp16 weights also slice `subA`/`subB` and
record `idx` now; with a purely-quantized weight only ensure the transform
of `CB` exists (outliers are extracted later). -/
def MatMul8bitLt.stepOutlierA {nb dout din : ℕ} (A : QMat nb din)
    (B : QMat dout din) (CA CAt : ZMat nb din)
    (cooA : Option (Finset (Fin din))) (state : MatmulLtState dout din) :
    Except String (ZMat nb din × ZMat nb din × SubInfo nb dout din ×
      MatmulLtState dout din) :=
  if 0 < state.threshold then
    match cooA with
    | some coo =>
      if state.has_fp16_weights then
        .ok (zeroCols CA coo, zeroCols CAt coo,
             some (A, coo, fun t o => B o t),
             { state with subB := some (fun t o => B o t), idx := some coo })
      else
        match state.CxB with
        | some _ => .ok (CA, CAt, none, state)
        | none =>
          match state.CB with
          | some cb => .ok (CA, CAt, none,
              { state with CxB := some cb, SB := some (dout, din) })
          | none => .error "state.CB is missing"
    | none => MatMul8bitLt.stepNoOutlierA CA CAt state
  else MatMul8bitLt.stepNoOutlierA CA CAt state

/-- Step 2 (lines 259-277): quantize the weight `B` only when it is held in
fp16 and either the state says it may have changed (training with no
pending gradient) or no transformed weight is cached; in that case the
cached representations are reset and rebuilt from `double_quant B`.
The second component reports whether quantization happened. -/
def MatMul8bitLt.quantizeB {dout din : ℕ} (B : QMat dout din)
    (state : MatmulLtState dout din) (hasGradB : Bool) :
    MatmulLtState dout din × Bool :=
  if state.has_fp16_weights then
    if (state.is_training && !hasGradB) || state.CxB.isNone then
      let s := state.reset_grads
      let dqB := double_quant B 0
      ({ s with
           CBt := some dqB.2.1, SCB := some dqB.2.2.1,
           SCBt := some dqB.2.2.2.1, CxB := some dqB.1,
           SB := some (dout, din) }, true)
    else (state, false)
  else (state, false)

/-- Step 2.5 (lines 279-299): for a purely-quantized weight with an outlier
overlay on `A`, reconstruct the floating outlier columns of `B` from the
transformed int8 weight (`extract_outliers` followed by the `* SCB / 127`
rescale and transpose), record `idx`, zero the outlier columns of the
quantized activations and slice `subA`. -/
def MatMul8bitLt.extractB {nb dout din : ℕ} (A : QMat nb din)
    (CA CAt : ZMat nb din) (cooA : Option (Finset (Fin din)))
    (sub : SubInfo nb dout din) (state : MatmulLtState dout din) :
    Except String (ZMat nb din × ZMat nb din × SubInfo nb dout din ×
      MatmulLtState dout din) :=
  if cooA.isSome && !state.has_fp16_weights then
    match cooA, state.CxB, state.SCB with
    | some coo, some cxb, some scb =>
      .ok (zeroCols CA coo, zeroCols CAt coo,
           some (A, coo, fun t o => (cxb o t : ℚ) * scb o / 127),
           { state with
               idx := some coo,
               subB := some (fun t o => (cxb o t : ℚ) * scb o / 127) })
    | _, _, _ => .error "state.CxB or state.SCB is missing for extraction"
  else .ok (CA, CAt, sub, state)

/-- Steps 3-5 (lines 301-337): read the output shape from `state.SB`, run
the integer GEMM of the (outlier-zeroed) quantized activations against the
transformed weight, dequantize with the fused bias, add the decomposition
correction `subA @ subB` when present, and assemble the saved tensors. -/
def MatMul8bitLt.finish {nb dout din : ℕ} (CA2 : ZMat nb din)
    (SCA : Fin nb → ℚ) (bias : Option (Fin dout → ℚ))
    (sub : SubInfo nb dout din) (state : MatmulLtState dout din)
    (reqA reqB : Bool) (CAt2 : ZMat nb din) (SCAt : Fin din → ℚ)
    (quantizedB : Bool) : Except String (ForwardResult nb dout din) :=
  match state.SB with
  | none => .error "state.SB is missing"
  | some _ =>
    match state.CxB, state.SCB with
    | some cxb, some scb =>
      let out0 := mm_dequant (igemmlt CA2 cxb) SCA scb bias
      let outc : QMat nb dout × Bool :=
        match sub with
        | some (sA, I, sB) =>
          (fun i o => out0 i o + ∑ t ∈ I, sA i t * sB t o, true)
        | none => (out0, false)
      .ok { output := outc.1, state := state, quantizedB := quantizedB,
            correctionApplied := outc.2,
            savedCAt := if reqA || reqB then some CAt2 else none,
            savedSubA := if reqA || reqB then sub.map (fun z => z.1) else none,
            savedSCAt := if reqA || reqB then some SCAt else none,
            savedIdx := if reqA || reqB then state.idx else none }
    | _, _ => .error "state.CxB or state.SCB is missing for matmul"

/-- `MatMul8bitLt.forward` (lines 204-337) on 2-D activations: the empty
short-circuit (lines 206-215) followed by quantize-A, quantize-B,
integer matmul with dequantization, and the mixed-precision correction.
`hasGradB` models `getattr(B, "grad", None) is not None`; `reqA`/`reqB`
model the gradient requirements. -/
def MatMul8bitLt.forward {nb dout din : ℕ} (A : QMat nb din)
    (B : QMat dout din) (bias : Option (Fin dout → ℚ))
    (state : MatmulLtState dout din) (hasGradB reqA reqB : Bool) :
    Except String (ForwardResult nb dout din) :=
  if nb * din = 0 then
    .ok { output := fun _ _ => 0, state := state, quantizedB := false,
          correctionApplied := false, savedCAt := none, savedSubA := none,
          savedSCAt := none, savedIdx := none }
  else
    let dq := double_quant A state.threshold
    match MatMul8bitLt.stepOutlierA A B dq.1 dq.2.1 dq.2.2.2.2 state with
    | .error e => .error e
    | .ok (CA1, CAt1, sub1, state1) =>
      let qb := MatMul8bitLt.quantizeB B state1 hasGradB
      match MatMul8bitLt.extractB A CA1 CAt1 dq.2.2.2.2 sub1 qb.1 with
      | .error e => .error e
      | .ok (CA2, CAt2, sub2, state2) =>
        MatMul8bitLt.finish CA2 dq.2.2.1 bias sub2 state2 reqA reqB CAt2
          dq.2.2.2.1 qb.2

/-- The shape computation of the empty-input short-circuit (lines 206-215):
when `A` has zero elements the forward returns an empty tensor of shape
`A.shape[:-1] + B.shape[1:]` if `A.shape[-1] == B.shape[0]`, and of shape
`A.shape[:-1] + B.shape[:1]` otherwise; on non-empty input the
short-circuit is not taken (`none`). -/
def forward_empty_shape (Ashape Bshape : List ℕ) : Option (List ℕ) :=
  if Ashape.prod = 0 then
    some (if Ashape.getLast? = Bshape.head?
          then Ashape.dropLast ++ Bshape.tail
          else Ashape.dropLast ++ Bshape.take 1)
  else none

/-! ### MatMul8bitLt.backward (`autograd/_functions.py`, lines 339-393) -/

/-- The context handed from forward to backward: the empty-input marker,
the gradient requirement flags, whether a bias was passed, the saved
tensors (`ctx.tensors` = `(CAt, subA)`, `ctx.tensor_states` =
`(SCAt, idx)`), and the shared `MatmulLtState`. -/
structure BackwardCtx (nb dout din : ℕ) where
  is_empty : Bool := false
  reqA : Bool := false
  reqB : Bool := false
  reqBias : Bool := false
  bias_present : Bool := false
  CAt : Option (ZMat nb din) := none
  subA : Option (QMat nb din) := none
  SCAt : Option (Fin din → ℚ) := none
  idx : Option (Finset (Fin din)) := none
  state : MatmulLtState dout din := {}

/-- The gradients produced by the backward pass and the (possibly
mutated) state. -/
structure BackwardResult (nb dout din : ℕ) where
  grad_A : Option (QMat nb din)
  grad_B : Option (QMat dout din)
  grad_bias : Option (Fin dout → ℚ)
  state : MatmulLtState dout din

/-- The fatal message of `raise Exception(...)` at line 385. -/
def missingBackwardStateMsg : String :=
  "State must contain either CBt or CB matrix for backward"

/-- Gradient w.r.t. the weight `B` (lines 362-368): quantize the upstream
gradient, integer-GEMM its transposed quantized form against the
transposed quantized activations saved by forward, dequantize with the
column statistics of both, and - when decomposition was active - add
`grad_output^T @ subA` into the columns of `grad_B` given by `idx`. -/
def MatMul8bitLt.backward_grad_B {nb dout din : ℕ} (g : QMat nb dout)
    (ctx : BackwardCtx nb dout din) :
    Except String (Option (QMat dout din)) :=
  if ctx.reqB then
    match ctx.CAt, ctx.SCAt with
    | some cat, some scat =>
      let dq := double_quant g 0
      let gB0 := mm_dequant
        (igemmlt (fun o b => dq.2.1 b o) (fun i b => cat b i))
        dq.2.2.2.1 scat none
      if 0 < ctx.state.threshold ∧ ctx.subA.isSome then
        match ctx.subA, ctx.idx with
        | some sA, some I =>
          .ok (some (fun o i =>
            gB0 o i + if i ∈ I then ∑ b, g b o * sA b i else 0))
        | _, _ => .error "ctx.idx is missing for the gradient scatter"
      else .ok (some gB0)
    | _, _ => .error "ctx.CAt or ctx.SCAt is missing for grad B"
  else .ok none

/-- Gradient w.r.t. the activations `A` (lines 370-385): when the
column-wise quantized weight `CBt` is cached, lazily transform and cache
`CxBt`, integer-GEMM the quantized gradient against it and dequantize;
otherwise fall back to reconstructing the floating weight from `CB` and
its scale `SCB / 127`; with neither representation, raise the fatal
missing-state error. -/
def MatMul8bitLt.backward_grad_A {nb dout din : ℕ} (g : QMat nb dout)
    (ctx : BackwardCtx nb dout din) :
    Except String (Option (QMat nb din) × MatmulLtState dout din) :=
  if ctx.reqA then
    let dq := double_quant g 0
    match ctx.state.CBt with
    | some cbt =>
      match ctx.state.SCBt with
      | some scbt =>
        let cxbt : Matrix (Fin din) (Fin dout) ℤ := fun i o => cbt o i
        let used : Matrix (Fin din) (Fin dout) ℤ :=
          match ctx.state.CxBt with | some c => c | none => cxbt
        let state' :=
          match ctx.state.CxBt with
          | none => { ctx.state with
                        CxBt := some cxbt,
                        SBt := some (din, dout) }
          | some _ => ctx.state
        .ok (some (mm_dequant (igemmlt dq.1 used) dq.2.2.1 scbt none), state')
      | none => .error "state.SCBt is missing"
    | none =>
      match ctx.state.CB, ctx.state.SCB with
      | some cb, some scb =>
        .ok (some (fun b i => ∑ o, g b o * ((cb o i : ℚ) * scb o / 127)),
             ctx.state)
      | none, _ => .error missingBackwardStateMsg
      | some _, none => .error "state.SCB is missing"
  else .ok (none, ctx.state)

/-- `MatMul8bitLt.backward` (lines 339-393): the empty short-circuit
returning zero gradients, then the weight gradient, the activation
gradient and the bias gradient (the column sum of the upstream
gradient). -/
def MatMul8bitLt.backward {nb dout din : ℕ} (g : QMat nb dout)
    (ctx : BackwardCtx nb dout din) :
    Except String (BackwardResult nb dout din) :=
  if ctx.is_empty then
    .ok { grad_A := some 0, grad_B := some 0,
          grad_bias := if ctx.bias_present then some 0 else none,
          state := ctx.state }
  else
    match MatMul8bitLt.backward_grad_B g ctx with
    | .error e => .error e
    | .ok gB =>
      match MatMul8bitLt.backward_grad_A g ctx with
      | .error e => .error e
      | .ok (gA, st) =>
        .ok { grad_A := gA, grad_B := gB,
              grad_bias := if ctx.reqBias then some (fun o => ∑ b, g b o)
                           else none,
              state := st }

/-! ### The public `matmul` wrapper (`autograd/_functions.py`, 396-407) -/

/-- The state handling of the public `matmul` wrapper: a fresh default
state when none is passed, and `state.threshold = threshold` only when
the `threshold` argument is strictly positive. -/
def matmul_state_update {dout din : ℕ}
    (state : Option (MatmulLtState dout din)) (threshold : ℚ) :
    MatmulLtState dout din :=
  let s := state.getD {}
  if 0 < threshold then { s with threshold := threshold } else s

/-- The public `matmul` entry point: update the state per the wrapper and
run `MatMul8bitLt.forward`. -/
def matmul {nb dout din : ℕ} (A : QMat nb din) (B : QMat dout din)
    (bias : Option (Fin dout → ℚ))
    (state : Option (MatmulLtState dout din)) (threshold : ℚ)
    (hasGradB reqA reqB : Bool) :
    Except String (ForwardResult nb dout din) :=
  MatMul8bitLt.forward A B bias (matmul_state_update state threshold)
    hasGradB reqA reqB

/-! ### Int8Params (`nn/modules.py`, lines 215-245)

`Int8Params.__new__` assigns `cls.has_fp16_weights`, `cls.CB` and
`cls.SCB`: attributes of the *class* object, shared by all instances.
Python attribute lookup reads the instance dictionary first and falls
back to the class.  `cuda` uses `setattr(self, ...)`, which writes the
instance dictionary. -/

/-- The class-attribute dictionary of `Int8Params`. -/
structure Int8ParamsCls (dout din : ℕ) where
  has_fp16_weights : Bool := false
  CB : Option (ZMat dout din) := none
  SCB : Option (Fin dout → ℚ) := none

/-- One `Int8Params` instance: its tensor payload, `requires_grad`, and
its instance-attribute dictionary (`none` = attribute absent, lookup
falls through to the class). -/
structure Int8ParamsObj (dout din : ℕ) where
  data : QMat dout din
  requires_grad : Bool
  inst_has_fp16_weights : Option Bool := none
  inst_CB : Option (Option (ZMat dout din)) := none
  inst_SCB : Option (Option (Fin dout → ℚ)) := none

/-- Python attribute lookup for `has_fp16_weights`: instance dict first,
then the class. -/
def Int8Params.lookup_has_fp16_weights {dout din : ℕ}
    (c : Int8ParamsCls dout din) (p : Int8ParamsObj dout din) : Bool :=
  p.inst_has_fp16_weights.getD c.has_fp16_weights

/-- Python attribute lookup for `CB`. -/
def Int8Params.lookup_CB {dout din : ℕ} (c : Int8ParamsCls dout din)
    (p : Int8ParamsObj dout din) : Option (ZMat dout din) :=
  p.inst_CB.getD c.CB

/-- Python attribute lookup for `SCB`. -/
def Int8Params.lookup_SCB {dout din : ℕ} (c : Int8ParamsCls dout din)
    (p : Int8ParamsObj dout din) : Option (Fin dout → ℚ) :=
  p.inst_SCB.getD c.SCB

/-- `Int8Params.__new__` (lines 216-229): writes `has_fp16_weights`,
`CB = None`, `SCB = None` onto the *class*, and returns a fresh instance
with an empty instance dictionary. -/
def Int8Params.new {dout din : ℕ} (c : Int8ParamsCls dout din)
    (data : QMat dout din) (requires_grad has_fp16_weights : Bool) :
    Int8ParamsCls dout din × Int8ParamsObj dout din :=
  ({ c with has_fp16_weights := has_fp16_weights, CB := none, SCB := none },
   { data := data, requires_grad := requires_grad })

/-- `Int8Params.cuda` (lines 231-245): a no-op for fp16 weights; otherwise
quantize the payload with `double_quant`, replace `data` by the int8 bulk
weight and attach `CB`/`SCB` to the *instance* via `setattr`. -/
def Int8Params.cuda {dout din : ℕ} (c : Int8ParamsCls dout din)
    (p : Int8ParamsObj dout din) :
    Int8ParamsCls dout din × Int8ParamsObj dout din :=
  if Int8Params.lookup_has_fp16_weights c p then (c, p)
  else
    let dq := double_quant p.data 0
    (c, { p with
            data := fun i j => ((dq.1 i j : ℤ) : ℚ),
            inst_CB := some (some dq.1),
            inst_SCB := some (some dq.2.2.1) })

/-! ### Spec-side definitions for the refinement claims -/

/-- The right-hand side of spec section 8, "Decomposition correctness":
`dequantize(igemm(quantize(A), quantize(B)))`, written with the spec's
row-wise quantizer, the integer GEMM and the dequantizer of section 4.2,
in the engine's `A @ B^T` orientation and with no bias and no correction
term. -/
def specPipeline {nb dout din : ℕ} (A : QMat nb din) (B : QMat dout din) :
    QMat nb dout :=
  mm_dequant (igemmlt (vectorwise_quant_row A) (vectorwise_quant_row B))
    (fun i => rowAbsMax A i) (fun o => rowAbsMax B o) none

/-! ### Concrete instance used to settle claim C7

Backward with decomposition active: `nb = dout = din = 2`, outlier column
set `{0}`.  The saved `CAt` is the zero matrix so that the integer-GEMM
part of `grad_B` vanishes and only the scatter term remains. -/

/-- The upstream gradient of the C7 instance. -/
def c7_gradOut : QMat 2 2 := fun _ j => if j = 1 then 1 else 0

/-- The saved activations (`subA`) of the C7 instance: column 0 is the
outlier column with value 1. -/
def c7_subA : QMat 2 2 := fun _ j => if j = 0 then 1 else 0

/-- The backward context of the C7 instance: gradient w.r.t. `B`
requested, decomposition active with outlier column set `{0}`. -/
def c7_ctx : BackwardCtx 2 2 2 :=
  { reqB := true,
    CAt := some 0,
    subA := some c7_subA,
    SCAt := some (fun _ => 1),
    idx := some {0},
    state := { threshold := 1 } }

/-- The integer-GEMM part of `grad_B` in the C7 instance (it is the zero
matrix, since the saved `CAt` is zero). -/
def c7_base : QMat 2 2 :=
  mm_dequant
    (igemmlt (fun o b => (double_quant c7_gradOut 0).2.1 b o)
             (fun (i : Fin 2) (b : Fin 2) => (0 : ZMat 2 2) b i))
    (double_quant c7_gradOut 0).2.2.2.1 (fun _ => 1) none

/-- The value of `grad_B` that claim C7 asserts: the integer-GEMM part
plus `dOut^T @ subA` scattered into the *rows* of `grad_B` given by the
outlier indices (here row 0, the only outlier index). -/
def c7_claim_grad_B : QMat 2 2 :=
  fun t i => c7_base t i +
    if t = 0 then ∑ b, c7_gradOut b i * c7_subA b 0 else 0

/-- The `grad_B` the embedded backward pass actually produces on the C7
instance (defaulting to 0 if backward failed or produced no gradient,
which the counterexample theorem shows is not the case). -/
def c7_actual_grad_B : QMat 2 2 :=
  (((MatMul8bitLt.backward c7_gradOut c7_ctx).toOption.bind
      BackwardResult.grad_B).getD 0)

/-- Concrete 1×1 input used by the C3 witness. -/
def c3w : QMat 1 1 := fun _ _ => 1

/-! ## Helper lemmas -/

theorem le_foldl_max (l : List ℚ) (init : ℚ) : init ≤ l.foldl max init := by
  induction l generalizing init with
  | nil => exact le_refl _
  | cons a t ih => exact le_trans (le_max_left init a) (ih (max init a))

theorem mem_le_foldl_max (l : List ℚ) (a init : ℚ) (h : a ∈ l) :
    a ≤ l.foldl max init := by
  induction l generalizing init with
  | nil => cases h
  | cons b t ih =>
    rcases List.mem_cons.mp h with rfl | h
    · exact le_trans (le_max_right init a) (le_foldl_max t (max init a))
    · exact ih (max init b) h

theorem foldl_max_eq_init_or_mem (l : List ℚ) (init : ℚ) :
    l.foldl max init = init ∨ l.foldl max init ∈ l := by
  induction l generalizing init with
  | nil => exact Or.inl rfl
  | cons a t ih =>
    rcases ih (max init a) with h | h
    · rcases max_choice init a with hm | hm
      · exact Or.inl (by rw [List.foldl_cons, h, hm])
      · exact Or.inr (by rw [List.foldl_cons, h, hm]; exact List.mem_cons_self a t)
    · exact Or.inr (List.mem_cons_of_mem a h)

theorem abs_le_rowAbsMax {m n : ℕ} (x : QMat m n) (i : Fin m) (j : Fin n) :
    |x i j| ≤ rowAbsMax x i :=
  mem_le_foldl_max _ _ _ ((List.mem_ofFn _ _).mpr ⟨j, rfl⟩)

theorem rowAbsMax_nonneg {m n : ℕ} (x : QMat m n) (i : Fin m) :
    0 ≤ rowAbsMax x i := le_foldl_max _ _

theorem rowAbsMax_eq_zero_or_attained {m n : ℕ} (x : QMat m n) (i : Fin m) :
    rowAbsMax x i = 0 ∨ ∃ j, rowAbsMax x i = |x i j| := by
  rcases foldl_max_eq_init_or_mem (List.ofFn fun j => |x i j|) 0 with h | h
  · exact Or.inl h
  · rcases (List.mem_ofFn _ _).mp h with ⟨j, hj⟩
    exact Or.inr ⟨j, hj.symm⟩

theorem rne_le_of_le {q : ℚ} {z : ℤ} (h : q ≤ z) : rne q ≤ z := by
  have hfl : ⌊q⌋ ≤ z := by
    have := Int.floor_le_floor h
    simpa using this
  unfold rne
  split
  · exact hfl
  · rename_i hge
    have h1 : (1:ℚ)/2 ≤ q - ⌊q⌋ := le_of_not_lt hge
    have hlt : (⌊q⌋ : ℚ) < z := by
      have : (⌊q⌋ : ℚ) + 1/2 ≤ q := by linarith
      linarith
    have : ⌊q⌋ < z := by exact_mod_cast hlt
    split
    · omega
    · split <;> omega

theorem le_rne_of_le {q : ℚ} {z : ℤ} (h : (z:ℚ) ≤ q) : z ≤ rne q := by
  have hfl : z ≤ ⌊q⌋ := Int.le_floor.mpr h
  unfold rne
  split
  · exact hfl
  · split
    · omega
    · split <;> omega

theorem int8clamp_eq_self {z : ℤ} (h1 : -127 ≤ z) (h2 : z ≤ 127) :
    int8clamp z = z := by
  unfold int8clamp
  omega

theorem stepOutlierA_fp16 {nb dout din : ℕ} (A : QMat nb din)
    (B : QMat dout din) (CA CAt : ZMat nb din)
    (coo : Option (Finset (Fin din))) (s : MatmulLtState dout din)
    (hfp : s.has_fp16_weights = true) :
    ∃ CA' CAt' sub' s',
      MatMul8bitLt.stepOutlierA A B CA CAt coo s = .ok (CA', CAt', sub', s') ∧
      s'.CB = s.CB ∧ s'.CxB = s.CxB ∧ s'.SB = s.SB ∧ s'.SCB = s.SCB ∧
      s'.CBt = s.CBt ∧ s'.SCBt = s.SCBt ∧
      s'.is_training = s.is_training ∧
      s'.has_fp16_weights = s.has_fp16_weights := by
  unfold MatMul8bitLt.stepOutlierA MatMul8bitLt.stepNoOutlierA
  by_cases ht : 0 < s.threshold
  · rw [if_pos ht]
    cases coo with
    | some c =>
      simp only [hfp, if_true]
      exact ⟨_, _, _, _, rfl, rfl, rfl, rfl, rfl, rfl, rfl, rfl, by simp [hfp]⟩
    | none =>
      simp only [hfp, if_true]
      exact ⟨_, _, _, _, rfl, rfl, rfl, rfl, rfl, rfl, rfl, rfl, by simp [hfp]⟩
  · rw [if_neg ht]
    simp only [hfp, if_true]
    exact ⟨_, _, _, _, rfl, rfl, rfl, rfl, rfl, rfl, rfl, rfl, by simp [hfp]⟩

theorem stepOutlierA_no_thresh {nb dout din : ℕ} (A : QMat nb din)
    (B : QMat dout din) (CA CAt : ZMat nb din)
    (coo : Option (Finset (Fin din))) (s : MatmulLtState dout din)
    (ht : ¬ 0 < s.threshold) (hfp : s.has_fp16_weights = true) :
    MatMul8bitLt.stepOutlierA A B CA CAt coo s = .ok (CA, CAt, none, s) := by
  unfold MatMul8bitLt.stepOutlierA MatMul8bitLt.stepNoOutlierA
  rw [if_neg ht]
  simp [hfp]

theorem extractB_none {nb dout din : ℕ} (A : QMat nb din)
    (CA CAt : ZMat nb din) (sub : SubInfo nb dout din)
    (s : MatmulLtState dout din) :
    MatMul8bitLt.extractB A CA CAt none sub s = .ok (CA, CAt, sub, s) := by
  unfold MatMul8bitLt.extractB
  simp

theorem quantizeB_fresh {dout din : ℕ} (B : QMat dout din)
    (s : MatmulLtState dout din) (hg : Bool)
    (hfp : s.has_fp16_weights = true) (hCxB : s.CxB = none) :
    MatMul8bitLt.quantizeB B s hg =
      ({ s.reset_grads with
           CBt := some (double_quant B 0).2.1,
           SCB := some (double_quant B 0).2.2.1,
           SCBt := some (double_quant B 0).2.2.2.1,
           CxB := some (double_quant B 0).1,
           SB := some (dout, din) }, true) := by
  unfold MatMul8bitLt.quantizeB
  simp [hfp, hCxB]

theorem quantizeB_frozen {dout din : ℕ} (B : QMat dout din)
    (s : MatmulLtState dout din) (hg : Bool)
    (hfp : s.has_fp16_weights = true) (hCxB : s.CxB.isSome)
    (hfz : s.is_training = false ∨ hg = true) :
    MatMul8bitLt.quantizeB B s hg = (s, false) := by
  unfold MatMul8bitLt.quantizeB
  have h1 : (s.is_training && !hg) = false := by
    rcases hfz with h | h <;> simp [h]
  have h2 : s.CxB.isNone = false := by
    rcases Option.isSome_iff_exists.mp hCxB with ⟨v, hv⟩
    simp [hv]
  simp [hfp, h1, h2]

theorem extractB_fp16 {nb dout din : ℕ} (A : QMat nb din)
    (CA CAt : ZMat nb din) (coo : Option (Finset (Fin din)))
    (sub : SubInfo nb dout din) (s : MatmulLtState dout din)
    (hfp : s.has_fp16_weights = true) :
    MatMul8bitLt.extractB A CA CAt coo sub s = .ok (CA, CAt, sub, s) := by
  unfold MatMul8bitLt.extractB
  simp [hfp]

theorem finish_ok {nb dout din : ℕ} (CA2 : ZMat nb din) (SCA : Fin nb → ℚ)
    (bias : Option (Fin dout → ℚ)) (sub : SubInfo nb dout din)
    (s : MatmulLtState dout din) (ra rb : Bool) (CAt2 : ZMat nb din)
    (SCAt : Fin din → ℚ) (qb : Bool)
    (hSB : s.SB.isSome) (hCxB : s.CxB.isSome) (hSCB : s.SCB.isSome) :
    ∃ r, MatMul8bitLt.finish CA2 SCA bias sub s ra rb CAt2 SCAt qb = .ok r ∧
      r.state = s ∧ r.quantizedB = qb := by
  rcases Option.isSome_iff_exists.mp hSB with ⟨sb, hsb⟩
  rcases Option.isSome_iff_exists.mp hCxB with ⟨cxb, hcxb⟩
  rcases Option.isSome_iff_exists.mp hSCB with ⟨scb, hscb⟩
  unfold MatMul8bitLt.finish
  rw [hsb, hcxb, hscb]
  cases sub with
  | none => exact ⟨_, rfl, rfl, rfl⟩
  | some z => exact ⟨_, rfl, rfl, rfl⟩

theorem backward_grad_B_ok {nb dout din : ℕ} (g : QMat nb dout)
    (ctx : BackwardCtx nb dout din)
    (hB : ctx.reqB = true → ctx.CAt.isSome ∧ ctx.SCAt.isSome ∧
      (0 < ctx.state.threshold ∧ ctx.subA.isSome → ctx.idx.isSome)) :
    ∃ gB, MatMul8bitLt.backward_grad_B g ctx = .ok gB := by
  unfold MatMul8bitLt.backward_grad_B
  cases hr : ctx.reqB with
  | false => exact ⟨none, by simp [hr]⟩
  | true =>
    obtain ⟨hCAt, hSCAt, hidx⟩ := hB hr
    rcases Option.isSome_iff_exists.mp hCAt with ⟨cat, hcat⟩
    rcases Option.isSome_iff_exists.mp hSCAt with ⟨scat, hscat⟩
    by_cases hc : 0 < ctx.state.threshold ∧ ctx.subA.isSome
    · rcases Option.isSome_iff_exists.mp (hidx hc) with ⟨I, hI⟩
      rcases Option.isSome_iff_exists.mp hc.2 with ⟨sA, hsA⟩
      exact ⟨some (fun o i =>
          mm_dequant (igemmlt (fun o b => (double_quant g 0).2.1 b o)
              (fun i b => cat b i)) (double_quant g 0).2.2.2.1 scat none o i +
            if i ∈ I then ∑ b, g b o * sA b i else 0),
        by simp [hr, hcat, hscat, hc, hI, hsA]⟩
    · exact ⟨some (mm_dequant
          (igemmlt (fun o b => (double_quant g 0).2.1 b o)
            (fun i b => cat b i)) (double_quant g 0).2.2.2.1 scat none),
        by simp [hr, hcat, hscat, hc]⟩

theorem backward_eq_gb {nb dout din : ℕ} (g : QMat nb dout)
    (ctx : BackwardCtx nb dout din) (gB : Option (QMat dout din))
    (hne : ctx.is_empty = false)
    (hgB : MatMul8bitLt.backward_grad_B g ctx = .ok gB) :
    MatMul8bitLt.backward g ctx =
      (match MatMul8bitLt.backward_grad_A g ctx with
       | .error e => .error e
       | .ok (gA, st) =>
         .ok { grad_A := gA, grad_B := gB,
               grad_bias := if ctx.reqBias then some (fun o => ∑ b, g b o)
                            else none,
               state := st }) := by
  unfold MatMul8bitLt.backward
  rw [hgB]
  simp [hne]

theorem backward_grad_A_CBt {nb dout din : ℕ} (g : QMat nb dout)
    (ctx : BackwardCtx nb dout din) (cbt : ZMat dout din)
    (scbt : Fin din → ℚ)
    (hA : ctx.reqA = true) (hcbt : ctx.state.CBt = some cbt)
    (hscbt : ctx.state.SCBt = some scbt) (hcxbt : ctx.state.CxBt = none) :
    MatMul8bitLt.backward_grad_A g ctx =
      .ok (some (mm_dequant
              (igemmlt (double_quant g 0).1 (fun i o => cbt o i))
              (double_quant g 0).2.2.1 scbt none),
           { ctx.state with
               CxBt := some (fun i o => cbt o i),
               SBt := some (din, dout) }) := by
  unfold MatMul8bitLt.backward_grad_A
  simp [hA, hcbt, hscbt, hcxbt]

theorem backward_grad_A_CBt_cached {nb dout din : ℕ} (g : QMat nb dout)
    (ctx : BackwardCtx nb dout din) (cbt : ZMat dout din)
    (scbt : Fin din → ℚ) (cxbt : Matrix (Fin din) (Fin dout) ℤ)
    (hA : ctx.reqA = true) (hcbt : ctx.state.CBt = some cbt)
    (hscbt : ctx.state.SCBt = some scbt)
    (hcxbt : ctx.state.CxBt = some cxbt) :
    MatMul8bitLt.backward_grad_A g ctx =
      .ok (some (mm_dequant (igemmlt (double_quant g 0).1 cxbt)
              (double_quant g 0).2.2.1 scbt none),
           ctx.state) := by
  unfold MatMul8bitLt.backward_grad_A
  simp [hA, hcbt, hscbt, hcxbt]

theorem backward_grad_A_CB {nb dout din : ℕ} (g : QMat nb dout)
    (ctx : BackwardCtx nb dout din) (cb : ZMat dout din)
    (scb : Fin dout → ℚ)
    (hA : ctx.reqA = true) (hcbt : ctx.state.CBt = none)
    (hcb : ctx.state.CB = some cb) (hscb : ctx.state.SCB = some scb) :
    MatMul8bitLt.backward_grad_A g ctx =
      .ok (some (fun b i => ∑ o, g b o * ((cb o i : ℚ) * scb o / 127)),
           ctx.state) := by
  unfold MatMul8bitLt.backward_grad_A
  simp [hA, hcbt, hcb, hscb]

theorem backward_grad_A_missing {nb dout din : ℕ} (g : QMat nb dout)
    (ctx : BackwardCtx nb dout din)
    (hA : ctx.reqA = true) (hcbt : ctx.state.CBt = none)
    (hcb : ctx.state.CB = none) :
    MatMul8bitLt.backward_grad_A g ctx = .error missingBackwardStateMsg := by
  unfold MatMul8bitLt.backward_grad_A
  simp [hA, hcbt, hcb]

theorem backward_gradB_decomp {nb dout din : ℕ} (g : QMat nb dout)
    (ctx : BackwardCtx nb dout din) (cat : ZMat nb din)
    (scat : Fin din → ℚ) (sA : QMat nb din) (I : Finset (Fin din))
    (hne : ctx.is_empty = false) (hrB : ctx.reqB = true)
    (hrA : ctx.reqA = false)
    (hcat : ctx.CAt = some cat) (hscat : ctx.SCAt = some scat)
    (ht : 0 < ctx.state.threshold) (hsA : ctx.subA = some sA)
    (hI : ctx.idx = some I) :
    ∃ r, MatMul8bitLt.backward g ctx = .ok r ∧
      r.grad_B = some (fun o i =>
        mm_dequant (igemmlt (fun o b => (double_quant g 0).2.1 b o)
            (fun i b => cat b i)) (double_quant g 0).2.2.2.1 scat none o i +
        if i ∈ I then ∑ b, g b o * sA b i else 0) := by
  have hgB : MatMul8bitLt.backward_grad_B g ctx = .ok (some (fun o i =>
      mm_dequant (igemmlt (fun o b => (double_quant g 0).2.1 b o)
          (fun i b => cat b i)) (double_quant g 0).2.2.2.1 scat none o i +
      if i ∈ I then ∑ b, g b o * sA b i else 0)) := by
    unfold MatMul8bitLt.backward_grad_B
    have hc : 0 < ctx.state.threshold ∧ ctx.subA.isSome := by
      rw [hsA]; exact ⟨ht, rfl⟩
    simp [hrB, hcat, hscat, hc, hsA, hI]
  have hgA : MatMul8bitLt.backward_grad_A g ctx = .ok (none, ctx.state) := by
    unfold MatMul8bitLt.backward_grad_A
    simp [hrA]
  have hmain := backward_eq_gb g ctx _ hne hgB
  rw [hgA] at hmain
  exact ⟨_, hmain, rfl⟩

/-! ## Claims -/

/-- Claim C3 (confirmed): row-wise quantization computes, for every row
with nonzero maximum magnitude, the scale as the attained maximum of the
absolute row values, and each quantized entry as
`round(127 * x[i,j] / scale[i])` (round to nearest, ties to even, the
`llrint` semantics) clamped to the int8 range [-127, 127] — the clamp is
satisfied because the computed value never leaves that range. -/
theorem claim_C3 {m n : ℕ} (x : QMat m n) (i : Fin m)
    (h : ∃ j, x i j ≠ 0) :
    (∀ j, |x i j| ≤ (quantize_rowwise_nogroup x).2 i) ∧
    (∃ j, (quantize_rowwise_nogroup x).2 i = |x i j|) ∧
    (∀ j, (quantize_rowwise_nogroup x).1 i j =
      some (int8clamp (rne (127 * (x i j / (quantize_rowwise_nogroup x).2 i))))) := by
  obtain ⟨j0, hj0⟩ := h
  have hpos : 0 < rowAbsMax x i :=
    lt_of_lt_of_le (abs_pos.mpr hj0) (abs_le_rowAbsMax x i j0)
  have hscale : (quantize_rowwise_nogroup x).2 i = rowAbsMax x i := rfl
  refine ⟨fun j => hscale ▸ abs_le_rowAbsMax x i j, ?_, ?_⟩
  · rcases rowAbsMax_eq_zero_or_attained x i with h0 | ⟨j, hj⟩
    · exact absurd h0 (ne_of_gt hpos)
    · exact ⟨j, hscale ▸ hj⟩
  · intro j
    have hq : |127 * (x i j / rowAbsMax x i)| ≤ 127 := by
      rw [abs_mul, abs_div]
      have h1 : |x i j| / |rowAbsMax x i| ≤ 1 := by
        rw [abs_of_pos hpos]
        exact (div_le_one hpos).mpr (abs_le_rowAbsMax x i j)
      calc |(127:ℚ)| * (|x i j| / |rowAbsMax x i|) ≤ |(127:ℚ)| * 1 := by
            exact mul_le_mul_of_nonneg_left h1 (abs_nonneg _)
        _ = 127 := by norm_num
    have hub : rne (127 * (x i j / rowAbsMax x i)) ≤ 127 := by
      have := (abs_le.mp hq).2
      exact_mod_cast rne_le_of_le (by exact_mod_cast this)
    have hlb : -127 ≤ rne (127 * (x i j / rowAbsMax x i)) := by
      have := (abs_le.mp hq).1
      exact_mod_cast le_rne_of_le (by push_cast; linarith)
    rw [hscale]
    unfold quantize_rowwise_nogroup
    simp only [if_neg (ne_of_gt hpos)]
    rw [int8clamp_eq_self hlb hub]

/-- Witness for C3 at the concrete 1×1 input with entry 1. -/
theorem claim_C3_witness :
    (∀ j, |c3w 0 j| ≤ (quantize_rowwise_nogroup c3w).2 0) ∧
    (∃ j, (quantize_rowwise_nogroup c3w).2 0 = |c3w 0 j|) ∧
    (∀ j, (quantize_rowwise_nogroup c3w).1 0 j =
      some (int8clamp (rne (127 * (c3w 0 j / (quantize_rowwise_nogroup c3w).2 0))))) :=
  claim_C3 c3w 0 ⟨0, by norm_num [c3w]⟩

/-- Counterexample to claim C2 as stated: on the all-zero 1×2 input the
kernel stores `max_val = 0` as the scale (no scale-1 substitution) and
computes `llrint(127 * (0 / 0))`, a division by zero whose float result
is NaN (modelled `none`): the quantized row is not a defined all-zero
int8 row. -/
theorem claim_C2_counterexample :
    (quantize_rowwise_nogroup (fun _ _ => (0:ℚ) : QMat 1 2)).1 0 0 = none ∧
    (quantize_rowwise_nogroup (fun _ _ => (0:ℚ) : QMat 1 2)).1 0 0 ≠ some 0 ∧
    (quantize_rowwise_nogroup (fun _ _ => (0:ℚ) : QMat 1 2)).2 0 = 0 ∧
    (quantize_rowwise_nogroup (fun _ _ => (0:ℚ) : QMat 1 2)).2 0 ≠ 1 := by
  refine ⟨?_, ?_, ?_, ?_⟩ <;> decide

/-- Claim C2 as amended: the kernel performs no scale substitution; for an
all-zero row it stores scale 0 and performs the division by zero, so the
quantized entries of that row are undefined (NaN on hardware), not a
defined all-zero row. -/
theorem claim_C2_amended {m n : ℕ} (x : QMat m n) (i : Fin m)
    (h : ∀ j, x i j = 0) :
    (quantize_rowwise_nogroup x).2 i = 0 ∧
    ∀ j, (quantize_rowwise_nogroup x).1 i j = none := by
  have hmax : rowAbsMax x i = 0 := by
    rcases rowAbsMax_eq_zero_or_attained x i with h0 | ⟨j, hj⟩
    · exact h0
    · rw [hj, h j, abs_zero]
  exact ⟨hmax, fun j => by simp [quantize_rowwise_nogroup, hmax]⟩

/-- Witness for the amended C2 at the all-zero 1×1 input. -/
theorem claim_C2_amended_witness :
    (quantize_rowwise_nogroup (fun _ _ => (0:ℚ) : QMat 1 1)).2 0 = 0 ∧
    ∀ j, (quantize_rowwise_nogroup (fun _ _ => (0:ℚ) : QMat 1 1)).1 0 j = none :=
  claim_C2_amended (fun _ _ => (0:ℚ) : QMat 1 1) 0 (fun _ => rfl)

/-- Claim C8 (confirmed): the pool records the width of the first
contribution (and merges it), thereafter silently ignores contributions of
a different width leaving the accumulated indices unchanged, merges
matching-width contributions, and on the concrete scenario
`addOutliers({1,2}, 10); addOutliers({3}, 20)` still reports `{1,2}`. -/
theorem claim_C8 :
    (∀ (s : GlobalOutlierPooler) (idx : Finset ℕ) (w : ℕ),
      s.model_dim = none →
      (s.add_outliers idx w).model_dim = some w ∧
      (s.add_outliers idx w).outliers = s.outliers ∪ idx) ∧
    (∀ (s : GlobalOutlierPooler) (idx : Finset ℕ) (w d : ℕ),
      s.model_dim = some d → w ≠ d →
      (s.add_outliers idx w).outliers = s.outliers ∧
      (s.add_outliers idx w).model_dim = some d) ∧
    (∀ (s : GlobalOutlierPooler) (idx : Finset ℕ) (d : ℕ),
      s.model_dim = some d →
      (s.add_outliers idx d).outliers = s.outliers ∪ idx) ∧
    ((GlobalOutlierPooler.initialState.add_outliers {1, 2} 10).add_outliers
      {3} 20).get_current_outlier_idx = {1, 2} := by
  refine ⟨?_, ?_, ?_, by decide⟩
  · intro s idx w h
    simp [GlobalOutlierPooler.add_outliers, h]
  · intro s idx w d h hne
    simp [GlobalOutlierPooler.add_outliers, h, hne]
  · intro s idx d h
    simp [GlobalOutlierPooler.add_outliers, h]

/-- Witness for C8: a pool with recorded width 10 ignores a width-20
contribution. -/
theorem claim_C8_witness :
    ((⟨{5}, some 10⟩ : GlobalOutlierPooler).add_outliers {7} 20).outliers
      = {5} ∧
    ((⟨{5}, some 10⟩ : GlobalOutlierPooler).add_outliers {7} 20).model_dim
      = some 10 :=
  claim_C8.2.1 ⟨{5}, some 10⟩ {7} 20 10 rfl (by decide)

/-- Claim C9 (confirmed): the public `matmul` wrapper overwrites
`state.threshold` only for a strictly positive `threshold` argument;
passing 0 leaves a previously positive threshold (indeed the whole state)
unchanged. -/
theorem claim_C9 {dout din : ℕ} (s : MatmulLtState dout din)
    (_pos : 0 < s.threshold) :
    (matmul_state_update (some s) 0).threshold = s.threshold ∧
    matmul_state_update (some s) 0 = s := by
  have : matmul_state_update (some s) 0 = s := by
    unfold matmul_state_update
    norm_num
  exact ⟨by rw [this], this⟩

/-- Witness for C9 at a state with threshold 6. -/
theorem claim_C9_witness :
    (matmul_state_update (some ({ threshold := 6 } : MatmulLtState 1 1))
      0).threshold = ({ threshold := 6 } : MatmulLtState 1 1).threshold ∧
    matmul_state_update (some ({ threshold := 6 } : MatmulLtState 1 1)) 0 =
      ({ threshold := 6 } : MatmulLtState 1 1) :=
  claim_C9 { threshold := 6 } (by norm_num)

/-- Claim C10 (confirmed): `Int8Params.__new__` writes `has_fp16_weights`,
`CB` and `SCB` onto the class, so constructing a second instance changes
the `has_fp16_weights` seen through attribute lookup on the first (and
resets the class-level `CB`/`SCB` to `None`); the first instance owns no
instance-level `CB`, and only `cuda()` (on a non-fp16 parameter) attaches
per-instance `CB`/`SCB` values. -/
theorem claim_C10 {dout din : ℕ} (c : Int8ParamsCls dout din)
    (d1 d2 : QMat dout din) (rg1 rg2 h1 h2 : Bool) :
    Int8Params.lookup_has_fp16_weights
      (Int8Params.new (Int8Params.new c d1 rg1 h1).1 d2 rg2 h2).1
      (Int8Params.new c d1 rg1 h1).2 = h2 ∧
    (Int8Params.new (Int8Params.new c d1 rg1 h1).1 d2 rg2 h2).1.CB = none ∧
    (Int8Params.new (Int8Params.new c d1 rg1 h1).1 d2 rg2 h2).1.SCB = none ∧
    Int8Params.lookup_CB
      (Int8Params.new (Int8Params.new c d1 rg1 h1).1 d2 rg2 h2).1
      (Int8Params.new c d1 rg1 h1).2 = none ∧
    Int8Params.lookup_SCB
      (Int8Params.new (Int8Params.new c d1 rg1 h1).1 d2 rg2 h2).1
      (Int8Params.new c d1 rg1 h1).2 = none ∧
    (Int8Params.new c d1 rg1 h1).2.inst_CB = none ∧
    (h2 = false →
      (Int8Params.cuda
        (Int8Params.new (Int8Params.new c d1 rg1 h1).1 d2 rg2 h2).1
        (Int8Params.new (Int8Params.new c d1 rg1 h1).1 d2 rg2 h2).2).2.inst_CB
        = some (some (double_quant d2 0).1) ∧
      (Int8Params.cuda
        (Int8Params.new (Int8Params.new c d1 rg1 h1).1 d2 rg2 h2).1
        (Int8Params.new (Int8Params.new c d1 rg1 h1).1 d2 rg2 h2).2).2.inst_SCB
        = some (some (double_quant d2 0).2.2.1)) := by
  refine ⟨rfl, rfl, rfl, rfl, rfl, rfl, ?_⟩
  intro hh
  subst hh
  exact ⟨rfl, rfl⟩

/-- Witness for C10 at concrete 1×1 parameters. -/
theorem claim_C10_witness :
    Int8Params.lookup_has_fp16_weights
      (Int8Params.new (Int8Params.new {} c3w true true).1 c3w true false).1
      (Int8Params.new ({} : Int8ParamsCls 1 1) c3w true true).2 = false ∧
    (Int8Params.new (Int8Params.new {} c3w true true).1 c3w true false).1.CB
      = none ∧
    (Int8Params.new (Int8Params.new {} c3w true true).1 c3w true false).1.SCB
      = none ∧
    Int8Params.lookup_CB
      (Int8Params.new (Int8Params.new {} c3w true true).1 c3w true false).1
      (Int8Params.new ({} : Int8ParamsCls 1 1) c3w true true).2 = none ∧
    Int8Params.lookup_SCB
      (Int8Params.new (Int8Params.new {} c3w true true).1 c3w true false).1
      (Int8Params.new ({} : Int8ParamsCls 1 1) c3w true true).2 = none ∧
    (Int8Params.new ({} : Int8ParamsCls 1 1) c3w true true).2.inst_CB
      = none ∧
    (false = false →
      (Int8Params.cuda
        (Int8Params.new (Int8Params.new {} c3w true true).1 c3w true false).1
        (Int8Params.new (Int8Params.new {} c3w true true).1 c3w true
          false).2).2.inst_CB = some (some (double_quant c3w 0).1) ∧
      (Int8Params.cuda
        (Int8Params.new (Int8Params.new {} c3w true true).1 c3w true false).1
        (Int8Params.new (Int8Params.new {} c3w true true).1 c3w true
          false).2).2.inst_SCB = some (some (double_quant c3w 0).2.2.1)) :=
  claim_C10 {} c3w c3w true true true false

/-- Claim C5 (confirmed): on an input with zero elements the forward pass
short-circuits, returning an empty tensor of shape
`A.shape[:-1] + B.shape[1:]` when `A.shape[-1] == B.shape[0]` and of shape
`A.shape[:-1] + (B.shape[0],)` otherwise, and — at the engine level — it
returns without error, performs no quantization and leaves the state
untouched. -/
theorem claim_C5 :
    (∀ (Ashape Bshape : List ℕ), Ashape ≠ [] → Bshape ≠ [] →
      Ashape.prod = 0 →
      (Ashape.getLast? = Bshape.head? →
        forward_empty_shape Ashape Bshape =
          some (Ashape.dropLast ++ Bshape.tail)) ∧
      (Ashape.getLast? ≠ Bshape.head? →
        forward_empty_shape Ashape Bshape =
          some (Ashape.dropLast ++ [Bshape.headI]))) ∧
    (∀ (nb dout din : ℕ) (A : QMat nb din) (B : QMat dout din)
      (bias : Option (Fin dout → ℚ)) (s : MatmulLtState dout din)
      (hg ra rb : Bool), nb * din = 0 →
      MatMul8bitLt.forward A B bias s hg ra rb =
        .ok { output := fun _ _ => 0, state := s, quantizedB := false,
              correctionApplied := false, savedCAt := none,
              savedSubA := none, savedSCAt := none, savedIdx := none }) := by
  constructor
  · intro Ashape Bshape _hA hB hprod
    constructor
    · intro heq
      simp [forward_empty_shape, hprod, heq]
    · intro hne
      unfold forward_empty_shape
      rw [if_pos hprod, if_neg hne]
      cases Bshape with
      | nil => exact absurd rfl hB
      | cons b t => simp [List.headI]
  · intro nb dout din A B bias s hg ra rb h
    simp [MatMul8bitLt.forward, h]

/-- Witness for C5: `A.shape = [0, 3]`, `B.shape = [3, 4]`, and the typed
engine on a 0×1 activation. -/
theorem claim_C5_witness :
    (forward_empty_shape [0, 3] [3, 4] =
      some ([0, 3].dropLast ++ [3, 4].tail)) ∧
    (MatMul8bitLt.forward (fun _ _ => 0 : QMat 0 1) c3w none {} false false
      false =
      .ok { output := fun _ _ => 0, state := {}, quantizedB := false,
            correctionApplied := false, savedCAt := none,
            savedSubA := none, savedSCAt := none, savedIdx := none }) :=
  ⟨(claim_C5.1 [0, 3] [3, 4] (by decide) (by decide) (by decide)).1
      (by decide),
   claim_C5.2 0 1 1 (fun _ _ => 0) c3w none {} false false false
      (by decide)⟩

/-- Claim C1 (confirmed): with threshold 0 and a fresh state, the forward
matmul is exactly the plain quantize-igemm-dequantize pipeline: no
correction term is applied and `subA` is left unset. -/
theorem claim_C1 {nb dout din : ℕ} (A : QMat nb din) (B : QMat dout din)
    (hA : nb * din ≠ 0) (_hB : dout * din ≠ 0) (hg ra rb : Bool) :
    ∃ r, matmul A B none none 0 hg ra rb = .ok r ∧
      r.output = specPipeline A B ∧
      r.correctionApplied = false ∧ r.savedSubA = none := by
  have hstate : matmul_state_update (none : Option (MatmulLtState dout din)) 0
      = ({} : MatmulLtState dout din) := by
    unfold matmul_state_update
    norm_num
  have hthr : ({} : MatmulLtState dout din).threshold = 0 := rfl
  have hcoo : (double_quant A ({} : MatmulLtState dout din).threshold).2.2.2.2
      = none := by
    rw [hthr]
    simp [double_quant]
  have hstep := stepOutlierA_no_thresh A B
    (double_quant A 0).1 (double_quant A 0).2.1
    (none : Option (Finset (Fin din)))
    ({} : MatmulLtState dout din) (lt_irrefl 0) rfl
  have hqb := quantizeB_fresh B ({} : MatmulLtState dout din) hg rfl rfl
  refine ⟨{ output := mm_dequant
                (igemmlt
                  (double_quant A 0).1
                  (double_quant B 0).1)
                (double_quant A 0).2.2.1
                (double_quant B 0).2.2.1 none,
            state := { CBt := some (double_quant B 0).2.1,
                       SCB := some (double_quant B 0).2.2.1,
                       SCBt := some (double_quant B 0).2.2.2.1,
                       CxB := some (double_quant B 0).1,
                       SB := some (dout, din) },
            quantizedB := true, correctionApplied := false,
            savedCAt := (if ra || rb then
                some (double_quant A 0).2.1
                else none),
            savedSubA := none,
            savedSCAt := (if ra || rb then
                some (double_quant A 0).2.2.2.1
                else none),
            savedIdx := none }, ?_, rfl, rfl, rfl⟩
  unfold matmul
  rw [hstate]
  unfold MatMul8bitLt.forward
  rw [if_neg hA]
  simp only [hstep, hqb, hcoo, extractB_none, MatMul8bitLt.finish,
    MatmulLtState.reset_grads]
  simp [ite_self]

/-- Witness for C1 at 1×1 inputs with entry 1. -/
theorem claim_C1_witness :
    ∃ r, matmul c3w c3w none none 0 false false false = .ok r ∧
      r.output = specPipeline c3w c3w ∧
      r.correctionApplied = false ∧ r.savedSubA = none :=
  claim_C1 c3w c3w (by decide) (by decide) false false false

/-- Claim C4 (confirmed): a forward call on an fp16 weight with a valid
cached state (`CxB`, `SB`, `SCB` present) that is frozen (not in training
mode, or a gradient marker present on `B`) performs no quantization of
`B` and leaves the cached fields `CB`, `CBt`, `SCB`, `SCBt`, `CxB`, `SB`
unchanged — in particular the second of two consecutive forward calls
with an unchanged frozen weight does not re-trigger quantization. -/
theorem claim_C4 {nb dout din : ℕ} (A : QMat nb din) (B : QMat dout din)
    (bias : Option (Fin dout → ℚ)) (s : MatmulLtState dout din)
    (hg ra rb : Bool)
    (hfp : s.has_fp16_weights = true)
    (hCxB : s.CxB.isSome) (hSB : s.SB.isSome) (hSCB : s.SCB.isSome)
    (hfz : s.is_training = false ∨ hg = true) :
    ∃ r, MatMul8bitLt.forward A B bias s hg ra rb = .ok r ∧
      r.quantizedB = false ∧
      r.state.CB = s.CB ∧ r.state.CBt = s.CBt ∧ r.state.SCB = s.SCB ∧
      r.state.SCBt = s.SCBt ∧ r.state.CxB = s.CxB ∧ r.state.SB = s.SB := by
  by_cases hemp : nb * din = 0
  · refine ⟨{ output := fun _ _ => 0, state := s, quantizedB := false,
              correctionApplied := false, savedCAt := none,
              savedSubA := none, savedSCAt := none, savedIdx := none },
      ?_, rfl, rfl, rfl, rfl, rfl, rfl, rfl⟩
    unfold MatMul8bitLt.forward
    rw [if_pos hemp]
  · obtain ⟨CA', CAt', sub', s1, hstep, hCB1, hCxB1, hSB1, hSCB1, hCBt1,
      hSCBt1, htr1, hfp1⟩ :=
      stepOutlierA_fp16 A B (double_quant A s.threshold).1
        (double_quant A s.threshold).2.1
        (double_quant A s.threshold).2.2.2.2 s hfp
    have hfp1' : s1.has_fp16_weights = true := by rw [hfp1, hfp]
    have hCxB1' : s1.CxB.isSome := by rw [hCxB1]; exact hCxB
    have hq : MatMul8bitLt.quantizeB B s1 hg = (s1, false) :=
      quantizeB_frozen B s1 hg hfp1' hCxB1' (by rw [htr1]; exact hfz)
    have hex : MatMul8bitLt.extractB A CA' CAt'
        (double_quant A s.threshold).2.2.2.2 sub' s1 =
        .ok (CA', CAt', sub', s1) :=
      extractB_fp16 A CA' CAt' _ sub' s1 hfp1'
    obtain ⟨r, hfin, hrs, hrq⟩ := finish_ok CA'
      (double_quant A s.threshold).2.2.1 bias sub' s1 ra rb CAt'
      (double_quant A s.threshold).2.2.2.1 false
      (by rw [hSB1]; exact hSB) hCxB1' (by rw [hSCB1]; exact hSCB)
    refine ⟨r, ?_, by rw [hrq], by rw [hrs, hCB1], by rw [hrs, hCBt1],
      by rw [hrs, hSCB1], by rw [hrs, hSCBt1], by rw [hrs, hCxB1],
      by rw [hrs, hSB1]⟩
    unfold MatMul8bitLt.forward
    rw [if_neg hemp]
    simp only [hstep, hq, hex, hfin]

/-- Witness for C4: a frozen 1×1 state with all caches present. -/
theorem claim_C4_witness :
    ∃ r, MatMul8bitLt.forward c3w c3w none
      ({ CxB := some 1, SB := some (1, 1), SCB := some (fun _ => 1),
         is_training := false } : MatmulLtState 1 1) false false false =
      .ok r ∧
      r.quantizedB = false ∧
      r.state.CB = none ∧ r.state.CBt = none ∧
      r.state.SCB = some (fun _ => 1) ∧ r.state.SCBt = none ∧
      r.state.CxB = some 1 ∧ r.state.SB = some (1, 1) :=
  claim_C4 c3w c3w none
    { CxB := some 1, SB := some (1, 1), SCB := some (fun _ => 1),
      is_training := false } false false false rfl rfl rfl rfl (Or.inl rfl)

/-- Claim C6 (confirmed): given the state invariants relating cached
matrices to their scale statistics, the backward pass computing the
gradient w.r.t. the activations raises the fatal missing-state error if
and only if the state holds neither `CBt` nor `CB`; with `CBt` present it
is used, lazily transforming and caching `CxBt` on first use; with only
`CB` present the gradient falls back to the floating weight reconstructed
from `CB` and `SCB / 127`. -/
theorem claim_C6 {nb dout din : ℕ} (g : QMat nb dout)
    (ctx : BackwardCtx nb dout din)
    (hne : ctx.is_empty = false) (hA : ctx.reqA = true)
    (hB : ctx.reqB = true → ctx.CAt.isSome ∧ ctx.SCAt.isSome ∧
      (0 < ctx.state.threshold ∧ ctx.subA.isSome → ctx.idx.isSome))
    (hv1 : ctx.state.CBt.isSome → ctx.state.SCBt.isSome)
    (hv2 : ctx.state.CBt = none → ctx.state.CB.isSome →
      ctx.state.SCB.isSome) :
    ((MatMul8bitLt.backward g ctx = .error missingBackwardStateMsg) ↔
      (ctx.state.CBt = none ∧ ctx.state.CB = none)) ∧
    (∀ cbt scbt, ctx.state.CBt = some cbt → ctx.state.SCBt = some scbt →
      ctx.state.CxBt = none →
      ∃ r, MatMul8bitLt.backward g ctx = .ok r ∧
        r.state.CxBt = some (fun i o => cbt o i) ∧
        r.state.SBt = some (din, dout) ∧
        r.grad_A = some (mm_dequant
          (igemmlt (double_quant g 0).1 (fun i o => cbt o i))
          (double_quant g 0).2.2.1 scbt none)) ∧
    (ctx.state.CBt = none → ∀ cb scb, ctx.state.CB = some cb →
      ctx.state.SCB = some scb →
      ∃ r, MatMul8bitLt.backward g ctx = .ok r ∧
        r.grad_A = some (fun b i =>
          ∑ o, g b o * ((cb o i : ℚ) * scb o / 127))) := by
  obtain ⟨gB, hgB⟩ := backward_grad_B_ok g ctx hB
  have hmain := backward_eq_gb g ctx gB hne hgB
  refine ⟨⟨?_, ?_⟩, ?_, ?_⟩
  · intro herr
    rcases hcbt : ctx.state.CBt with _ | cbt
    · rcases hcb : ctx.state.CB with _ | cb
      · exact ⟨rfl, rfl⟩
      · exfalso
        rcases Option.isSome_iff_exists.mp
          (hv2 hcbt (by rw [hcb]; rfl)) with ⟨scb, hscb⟩
        rw [backward_grad_A_CB g ctx cb scb hA hcbt hcb hscb] at hmain
        rw [hmain] at herr
        simp at herr
    · exfalso
      rcases Option.isSome_iff_exists.mp
        (hv1 (by rw [hcbt]; rfl)) with ⟨scbt, hscbt⟩
      rcases hcxbt : ctx.state.CxBt with _ | cxbt
      · rw [backward_grad_A_CBt g ctx cbt scbt hA hcbt hscbt hcxbt] at hmain
        rw [hmain] at herr
        simp at herr
      · rw [backward_grad_A_CBt_cached g ctx cbt scbt cxbt hA hcbt hscbt
          hcxbt] at hmain
        rw [hmain] at herr
        simp at herr
  · rintro ⟨h1, h2⟩
    rw [backward_grad_A_missing g ctx hA h1 h2] at hmain
    exact hmain
  · intro cbt scbt hcbt hscbt hcxbt
    rw [backward_grad_A_CBt g ctx cbt scbt hA hcbt hscbt hcxbt] at hmain
    exact ⟨_, hmain, rfl, rfl, rfl⟩
  · intro h1 cb scb hcb hscb
    rw [backward_grad_A_CB g ctx cb scb hA h1 hcb hscb] at hmain
    exact ⟨_, hmain, rfl⟩

/-- Witness for C6 at a concrete 1×1 context with both representations
absent: the error iff reduces to the fatal error being raised. -/
theorem claim_C6_witness :
    ((MatMul8bitLt.backward c3w ({ reqA := true } : BackwardCtx 1 1 1) =
        .error missingBackwardStateMsg) ↔
      (({ reqA := true } : BackwardCtx 1 1 1).state.CBt = none ∧
        ({ reqA := true } : BackwardCtx 1 1 1).state.CB = none)) ∧
    (∀ cbt scbt,
      ({ reqA := true } : BackwardCtx 1 1 1).state.CBt = some cbt →
      ({ reqA := true } : BackwardCtx 1 1 1).state.SCBt = some scbt →
      ({ reqA := true } : BackwardCtx 1 1 1).state.CxBt = none →
      ∃ r, MatMul8bitLt.backward c3w ({ reqA := true } : BackwardCtx 1 1 1)
          = .ok r ∧
        r.state.CxBt = some (fun i o => cbt o i) ∧
        r.state.SBt = some (1, 1) ∧
        r.grad_A = some (mm_dequant
          (igemmlt (double_quant c3w 0).1 (fun i o => cbt o i))
          (double_quant c3w 0).2.2.1 scbt none)) ∧
    (({ reqA := true } : BackwardCtx 1 1 1).state.CBt = none →
      ∀ cb scb,
      ({ reqA := true } : BackwardCtx 1 1 1).state.CB = some cb →
      ({ reqA := true } : BackwardCtx 1 1 1).state.SCB = some scb →
      ∃ r, MatMul8bitLt.backward c3w ({ reqA := true } : BackwardCtx 1 1 1)
          = .ok r ∧
        r.grad_A = some (fun b i =>
          ∑ o, c3w b o * ((cb o i : ℚ) * scb o / 127))) :=
  claim_C6 c3w { reqA := true } rfl rfl
    (fun h => absurd h (by decide))
    (fun h => absurd h (by decide))
    (fun _ h => absurd h (by decide))

/-- Claim C7 as amended (the code scatters the correction into the
*columns* of `grad_B`, not the rows): with decomposition active
(threshold > 0, `subA` and `idx` retained from forward), the gradient
w.r.t. the weight equals the dequantized integer GEMM of the quantized
upstream gradient against the transposed quantized activations cached by
forward, plus the floating correction `dOut^T @ subA` added into the
columns of `grad_B` given by the outlier indices. -/
theorem claim_C7_amended {nb dout din : ℕ} (g : QMat nb dout)
    (ctx : BackwardCtx nb dout din) (cat : ZMat nb din)
    (scat : Fin din → ℚ) (sA : QMat nb din) (I : Finset (Fin din))
    (hne : ctx.is_empty = false) (hrB : ctx.reqB = true)
    (hrA : ctx.reqA = false)
    (hcat : ctx.CAt = some cat) (hscat : ctx.SCAt = some scat)
    (ht : 0 < ctx.state.threshold) (hsA : ctx.subA = some sA)
    (hI : ctx.idx = some I) :
    ∃ r, MatMul8bitLt.backward g ctx = .ok r ∧
      r.grad_B = some (fun o i =>
        mm_dequant (igemmlt (fun o b => (double_quant g 0).2.1 b o)
            (fun i b => cat b i)) (double_quant g 0).2.2.2.1 scat none o i +
        if i ∈ I then ∑ b, g b o * sA b i else 0) :=
  backward_gradB_decomp g ctx cat scat sA I hne hrB hrA hcat hscat ht hsA hI

/-- Witness for the amended C7 at the concrete decomposition instance. -/
theorem claim_C7_amended_witness :
    ∃ r, MatMul8bitLt.backward c7_gradOut c7_ctx = .ok r ∧
      r.grad_B = some (fun o i =>
        mm_dequant
          (igemmlt (fun o b => (double_quant c7_gradOut 0).2.1 b o)
            (fun i b => (0 : ZMat 2 2) b i))
          (double_quant c7_gradOut 0).2.2.2.1 (fun _ => 1) none o i +
        if i ∈ ({0} : Finset (Fin 2)) then
          ∑ b, c7_gradOut b o * c7_subA b i else 0) :=
  claim_C7_amended c7_gradOut c7_ctx 0 (fun _ => 1) c7_subA {0}
    rfl rfl rfl rfl rfl (by norm_num [c7_ctx]) rfl rfl

/-- Counterexample to claim C7 as stated: on the concrete decomposition
instance the backward pass adds the correction into *column* 0 of
`grad_B` (entry (1,0) becomes 2, entry (0,1) stays 0), whereas the
claimed row-scatter puts it into *row* 0 (entry (0,1) becomes 2 and entry
(1,0) stays 0); the produced gradient differs from the claimed one. -/
theorem claim_C7_counterexample :
    c7_actual_grad_B 1 0 = 2 ∧ c7_claim_grad_B 1 0 = 0 ∧
    c7_actual_grad_B 0 1 = 0 ∧ c7_claim_grad_B 0 1 = 2 ∧
    c7_actual_grad_B ≠ c7_claim_grad_B := by
  obtain ⟨r, hr, hgB⟩ := backward_gradB_decomp c7_gradOut c7_ctx 0
    (fun _ => 1) c7_subA {0} rfl rfl rfl rfl rfl (by norm_num [c7_ctx])
    rfl rfl
  have hact : ∀ o i, c7_actual_grad_B o i =
      mm_dequant (igemmlt (fun o b => (double_quant c7_gradOut 0).2.1 b o)
          (fun i b => (0 : ZMat 2 2) b i))
        (double_quant c7_gradOut 0).2.2.2.1 (fun _ => 1) none o i +
      (if i ∈ ({0} : Finset (Fin 2)) then
        ∑ b, c7_gradOut b o * c7_subA b i else 0) := by
    intro o i
    unfold c7_actual_grad_B
    rw [hr]
    show (r.grad_B.getD 0) o i = _
    rw [hgB]
    rfl
  have hbase : ∀ o i, mm_dequant
      (igemmlt (fun o b => (double_quant c7_gradOut 0).2.1 b o)
        (fun i b => (0 : ZMat 2 2) b i))
      (double_quant c7_gradOut 0).2.2.2.1 (fun _ => 1) none o i = 0 := by
    intro o i
    simp [mm_dequant, igemmlt]
  have hsum : ∀ o, (∑ b, c7_gradOut b o * c7_subA b 0) =
      (if o = 1 then 2 else 0 : ℚ) := by
    intro o
    fin_cases o <;> simp [c7_gradOut, c7_subA, Fin.sum_univ_two]
  have h1 : c7_actual_grad_B 1 0 = 2 := by
    rw [hact, hbase, hsum]
    norm_num
  have h2 : c7_claim_grad_B 1 0 = 0 := by
    unfold c7_claim_grad_B c7_base
    rw [hbase]
    norm_num
  have h3 : c7_actual_grad_B 0 1 = 0 := by
    rw [hact, hbase]
    norm_num
  have h4 : c7_claim_grad_B 0 1 = 2 := by
    unfold c7_claim_grad_B c7_base
    rw [hbase]
    have : (∑ b, c7_gradOut b 1 * c7_subA b 0) = 2 := by
      simpa using hsum 1
    simpa using this
  refine ⟨h1, h2, h3, h4, fun h => ?_⟩
  have : (2:ℚ) = 0 := by rw [← h1, h, h2]
  norm_num at this

end BnB
